import Mathlib

/-!
Shallow embedding of the extraction/transform core of the
keboola/component-hubspot-v2 repository, together with theorems settling
the frozen claims about it.

Embedded source files:
* `src/json_parser.py` — `FlattenJsonParser` (bounded-depth flattening);
* `src/table_handler.py` — `TableHandler` (column shortening, metadata
  redefinition);
* `src/component.py` — column/state evolution (`_add_columns_from_state_to_column_list`,
  `_close_table_handler`) and fetch orchestration (`_process_basic_crm_object`);
* `src/client/client.py` — pagination (`_get_paged_result_pages`),
  association batching (`get_associations`), request-shape selection
  (`_fetch_object_data`).

Python values that flow through these functions are modelled by the
inductive type `Json`; Python `dict`s are modelled as insertion-ordered
association lists with the helper operations `dictGet` / `dictSet`, which
mirror CPython's dictionary semantics (lookup by key equality; assignment
updates the value in place for an existing key and appends a new key).
-/

/-- A JSON-like Python value: `None`, booleans, integers, strings,
lists and (insertion-ordered) dictionaries with string keys. -/
inductive Json where
  | null : Json
  | bool : Bool → Json
  | num : Int → Json
  | str : String → Json
  | arr : List Json → Json
  | obj : List (String × Json) → Json
deriving Repr

/-- Python `d.get(k)` on an insertion-ordered string-keyed dict modelled
as an association list: the value at the first matching key, if any. -/
def dictGet {α : Type} (d : List (String × α)) (k : String) : Option α :=
  match d with
  | [] => none
  | (k₁, v) :: rest => if k₁ = k then some v else dictGet rest k

/-- Python `d[k] = v` on an insertion-ordered dict: replace the value at
an existing key in place, else append the new binding at the end. -/
def dictSet {α : Type} (d : List (String × α)) (k : String) (v : α) :
    List (String × α) :=
  match d with
  | [] => [(k, v)]
  | (k₁, v₁) :: rest => if k₁ = k then (k, v) :: rest else (k₁, v₁) :: dictSet rest k v

/-- Python truthiness of an optional `Json` value (`None`/missing, `False`,
`0`, `""`, `[]` and `{}` are falsy, everything else truthy). -/
def truthy : Option Json → Bool
  | none => false
  | some Json.null => false
  | some (Json.bool b) => b
  | some (Json.num n) => decide (n ≠ 0)
  | some (Json.str s) => decide (s ≠ "")
  | some (Json.arr xs) => !xs.isEmpty
  | some (Json.obj kvs) => !kvs.isEmpty

/-! ## FlattenJsonParser (`src/json_parser.py`)

`FlattenJsonParser._construct_key` and `_flatten_row`.  The parser state
(`child_separator`, `max_parsing_depth`) is passed explicitly; the inner
closure `_flatten` mutates the dictionary `flattened_dict`, which is
threaded here as the accumulator `acc`. -/

/-- `FlattenJsonParser._construct_key`: join parent and child key with the
separator, unless the parent key is empty (falsy). -/
def constructKey (parentKey sep childKey : String) : String :=
  if parentKey = "" then childKey else parentKey ++ sep ++ childKey

/-- The inner closure `_flatten` of `FlattenJsonParser._flatten_row`,
with the depth counter replaced by the remaining depth budget
`fuel = max_parsing_depth + 1 - current_depth` (so the source's guard
`current_depth <= max_parsing_depth` becomes `fuel ≠ 0`): a dict value
with budget left is expanded key by key in insertion order (each child
at budget `fuel - 1`, i.e. depth + 1, with the joined parent name); any
other value — a non-dict, or a dict past the budget — is stored verbatim
in the accumulator under the joined name.  `flattenAt` below restates
this with the source's `current_depth` counter. -/
def flattenFuel (sep : String) :
    Nat → Json → String → List (String × Json) → List (String × Json)
  | fuel + 1, Json.obj kvs, nameWithParent, acc =>
    kvs.foldl
      (fun a kv => flattenFuel sep fuel kv.2 (constructKey nameWithParent sep kv.1) a)
      acc
  | 0, Json.obj kvs, nameWithParent, acc => dictSet acc nameWithParent (Json.obj kvs)
  | _, v, nameWithParent, acc => dictSet acc nameWithParent v

/-- `_flatten(dict_object, name_with_parent, current_depth)` with the
source's depth counter: the remaining budget at depth `d` is
`max_parsing_depth + 1 - d`. -/
def flattenAt (maxDepth : Nat) (sep : String) (v : Json) (nameWithParent : String)
    (currentDepth : Nat) (acc : List (String × Json)) : List (String × Json) :=
  flattenFuel sep (maxDepth + 1 - currentDepth) v nameWithParent acc

/-- `FlattenJsonParser._flatten_row`: an empty record flattens to the
empty dict, otherwise `_flatten` runs on the record itself at depth 0
with an empty parent name and an empty accumulator. -/
def flattenRow (maxDepth : Nat) (sep : String) (row : List (String × Json)) :
    List (String × Json) :=
  if row.isEmpty then [] else flattenAt maxDepth sep (Json.obj row) "" 0 []

/-- `FlattenJsonParser.parse_data`: flatten every record of a page in
place, preserving order. -/
def parseData (maxDepth : Nat) (sep : String) (data : List (List (String × Json))) :
    List (List (String × Json)) :=
  data.map (flattenRow maxDepth sep)

/-! ## Schema evolution (`src/component.py`)

`Component._add_columns_from_state_to_column_list`: the candidate column
list of the freshly created table definition (the schema's field names)
is extended, by repeated `add_column` (append), with every column of the
previous run's committed state that is not already among the candidates.
`add_column` of the external table-definition collaborator appends the
name at the end of the ordered column list. -/

/-- `Component._add_columns_from_state_to_column_list`: `columnsInState`
is `self.state.get(object_name, [])`, `columnNames` the table
definition's current column list; state columns missing from it are
appended one by one, in state order. -/
def addColumnsFromState (columnsInState : List String) (columnNames : List String) :
    List String :=
  let stateColumnsNotInColumnNames :=
    columnsInState.filter (fun col => decide (col ∉ columnNames))
  stateColumnsNotInColumnNames.foldl (fun cols column => cols ++ [column]) columnNames

/-! ## Closing a table (`src/component.py`, `src/table_handler.py`) -/

/-- `TableHandler.redefine_table_column_metadata`: keep exactly the
metadata entries whose column name is not among `stateColumns`. -/
def redefineTableColumnMetadata (columnMetadata : List (String × String))
    (stateColumns : List String) : List (String × String) :=
  columnMetadata.filter (fun kv => decide (kv.1 ∉ stateColumns))

/-- Result of `Component._close_table_handler`: the table definition's
final column list, the updated run state, and the per-column metadata
left on the table definition when the manifest is written. -/
structure CloseResult where
  tdColumns : List String
  newState : List (String × List String)
  emittedMetadata : List (String × String)
deriving Repr

/-- `Component._close_table_handler` (data flow after `close_writer`):
columns discovered by the writer but missing from the table definition
are appended; the handler's final field list is stored into
`self.state[name]`; then `prev_run_cols` is read back from
`self.state.get(name, [])` — i.e. from the state entry that was just
overwritten — and passed to `redefine_table_column_metadata`. -/
def closeTableHandler (state : List (String × List String)) (name : String)
    (tdColumns : List String) (finalFieldNames : List String)
    (columnMetadata : List (String × String)) : CloseResult :=
  let missingColumns := finalFieldNames.filter (fun col => decide (col ∉ tdColumns))
  let tdColumns₁ := tdColumns ++ missingColumns
  let state₁ := dictSet state name finalFieldNames
  let prevRunCols := (dictGet state₁ name).getD []
  { tdColumns := tdColumns₁
    newState := state₁
    emittedMetadata := redefineTableColumnMetadata columnMetadata prevRunCols }

/-! ## Pagination (`src/client/client.py`, `_get_paged_result_pages`)

The engine repeatedly issues a request built from the mutable
`parameters` dict (whose `offset` and `limit` entries it assigns before
every call) and a scripted remote behavior: the finite list of JSON
responses the remote returns, in order.  The has-more field it reads is
the hard-coded key `"hasMore"`, the continuation cursor the hard-coded
key `"offset"`; only the result-array field name `resObjName` is a
parameter of the call.  Each yielded element records the query
parameters of the request that produced it and the page data. -/

/-- One request/page pair produced by the pagination loop. -/
structure PageCall where
  params : List (String × Json)
  page : Json
deriving Repr

/-- The `data` extraction of `_get_paged_result_pages`: `data = []`,
replaced by the raw value at `resObjName` when that value is truthy. -/
def extractData (resObjName : String) (resp : List (String × Json)) : Json :=
  match dictGet resp resObjName with
  | some v => if truthy (some v) then v else Json.arr []
  | none => Json.arr []

/-- `HubspotClient._get_paged_result_pages` driven by the scripted
response list: set `parameters["offset"]`/`parameters["limit"]`, consume
the next response, yield its data, and continue (with the response's
`"offset"` value as the next cursor) exactly when its `"hasMore"` field
is truthy.  A missing `"offset"` on a continuing response raises
`KeyError` in the source and is modelled as `null`; under the theorems'
hypotheses the loop stops exactly when the script is exhausted. -/
def getPagedResultPages (resObjName : String) (limit : Json) :
    List (List (String × Json)) → List (String × Json) → Json → List PageCall
  | [], _, _ => []
  | resp :: rest, params, offset =>
    let params₁ := dictSet (dictSet params "offset" offset) "limit" limit
    let hasMore := truthy (dictGet resp "hasMore")
    { params := params₁, page := extractData resObjName resp } ::
      (if hasMore then
        getPagedResultPages resObjName limit rest params₁ ((dictGet resp "offset").getD Json.null)
      else [])

/-- `HubspotClient.get_contact_lists`: pages through
`contacts/v1/lists/` via `_get_paged_result_pages(ENDPOINTS_CONTACT_LISTS, {}, "lists")`,
i.e. with empty initial parameters, the default limit
`DEFAULT_V1_LIMIT = 1000`, an initial offset of `None`, and result-array
field `"lists"`. -/
def getContactLists (responses : List (List (String × Json))) : List PageCall :=
  getPagedResultPages "lists" (Json.num 1000) responses [] Json.null

/-! ## Association batching (`src/client/client.py`, `get_associations`) -/

/-- One element of the batch-read request payload: `{"id": <object_id>}`. -/
structure BatchInput where
  id : String
deriving Repr, DecidableEq

/-- `HubspotClient._format_batch_inputs`. -/
def formatBatchInputs (objectIds : List String) : List BatchInput :=
  objectIds.map BatchInput.mk

/-- The slicing loop of `HubspotClient.divide_chunks`, made structurally
recursive on a step budget so that concrete runs evaluate: each
iteration yields the slice `l[: list_len]` and continues on
`l[list_len :]`.  Since every iteration consumes at least one element
when `list_len ≠ 0`, a budget of `l.length` steps is never exhausted. -/
def divideChunksAux (listLen : Nat) : Nat → List α → List (List α)
  | _, [] => []
  | 0, _ => []
  | fuel + 1, l => l.take listLen :: divideChunksAux listLen fuel (l.drop listLen)

/-- `HubspotClient.divide_chunks`: consecutive slices
`list_to_divide[i : i + list_len]` for `i = 0, list_len, 2·list_len, …`.
(The source's `range(0, len, 0)` would raise `ValueError`; the
`list_len = 0` case is unreachable from `get_associations`, which always
passes `BATCH_LIMIT = 100`.) -/
def divideChunks (listToDivide : List α) (listLen : Nat) : List (List α) :=
  if listLen = 0 then []
  else divideChunksAux listLen listToDivide.length listToDivide

/-- `HubspotClient.get_associations`, viewed as the sequence of batch
"read relationships" requests it issues: the id sequence is wrapped into
`{"id": …}` inputs and divided into chunks of `BATCH_LIMIT = 100`; one
batch read request is issued per chunk, in order. -/
def getAssociations (objectIds : List String) : List (List BatchInput) :=
  divideChunks (formatBatchInputs objectIds) 100

/-! ## Fetch orchestration (`src/component.py`, `src/client/client.py`) -/

/-- `configuration.FetchMode`. -/
inductive FetchMode where
  | full_fetch : FetchMode
  | incremental_fetch : FetchMode
deriving Repr, DecidableEq, BEq

/-- The request shape a CRM-object fetch uses: the filtered + sorted
search request of the incremental branch (changed-since filter `GTE
sinceDate`, descending sort, page size `BATCH_LIMIT = 100`, `after=0`),
or the basic listing request with its `archived` flag. -/
inductive RequestShape where
  | search (sinceDate : Int) : RequestShape
  | basic (archived : Bool) : RequestShape
deriving Repr, DecidableEq

/-- `HubspotClient._fetch_object_data`: incremental fetches build the
search request (the `archived` argument is not consulted); otherwise the
basic listing request carries the `archived` flag. -/
def fetchObjectData (incremental : Bool) (archived : Bool) (sinceDate : Int) :
    RequestShape :=
  if incremental then RequestShape.search sinceDate else RequestShape.basic archived

/-- `Component._process_basic_crm_object`, viewed as the sequence of
client fetches it triggers: `incremental_fetch_mode` is `fetch_mode !=
FetchMode.FULL_FETCH`; if the configured `archived` flag is set, a first
fetch is issued with `archived=True`, and a fetch with `archived=False`
always follows. -/
def processBasicCrmObject (fetchMode : FetchMode) (archived : Bool) (sinceDate : Int) :
    List RequestShape :=
  let incrementalFetchMode := fetchMode != FetchMode.full_fetch
  (if archived then [fetchObjectData incrementalFetchMode true sinceDate] else [])
    ++ [fetchObjectData incrementalFetchMode false sinceDate]

/-- Whether a `Json` value is a dict (Python `isinstance(x, dict)`). -/
def Json.isObj : Json → Bool
  | Json.obj _ => true
  | _ => false

/-- Scripted first response of the claim's example scenario: two records,
`hasMore=true`, `offset="o1"`. -/
def exampleRespA : List (String × Json) :=
  [("campaigns", Json.arr [Json.num 1, Json.num 2]), ("hasMore", Json.bool true),
   ("offset", Json.str "o1")]

/-- Scripted terminal response: one record, `hasMore=false`, with a stray
offset value present. -/
def exampleRespB : List (String × Json) :=
  [("campaigns", Json.arr [Json.num 3]), ("hasMore", Json.bool false),
   ("offset", Json.str "stray")]

/-- Scripted contact-lists response in the documented external
convention B: `has-more` (hyphenated) true, an offset, and a `lists`
result array. -/
def contactListsRespA : List (String × Json) :=
  [("lists", Json.arr [Json.num 1]), ("has-more", Json.bool true), ("offset", Json.num 250)]

/-- Second scripted contact-lists response (never requested by the code). -/
def contactListsRespB : List (String × Json) :=
  [("lists", Json.arr [Json.num 2]), ("has-more", Json.bool false), ("offset", Json.num 500)]

/-! ## MD5 (external collaborator `hashlib.md5` of `TableHandler._hash_column`)

The source shortens long column names with
`hashlib.md5(name.encode("utf-8")).hexdigest()`.  `hashlib` is standard
library code, embedded here as the RFC 1321 algorithm over byte lists
(`Nat` values < 256), with 32-bit words as `Nat` values reduced mod
`2^32`.  The test-vector theorems below check the embedding against the
published MD5 digests. -/

/-- The four 32-bit MD5 registers. -/
structure MD5State where
  a : Nat
  b : Nat
  c : Nat
  d : Nat
deriving Repr

/-- The 64 MD5 round constants `⌊2³² · |sin(i+1)|⌋`. -/
def md5K : List Nat :=
  [3614090360, 3905402710, 606105819, 3250441966, 4118548399, 1200080426, 2821735955,
   4249261313, 1770035416, 2336552879, 4294925233, 2304563134, 1804603682, 4254626195,
   2792965006, 1236535329, 4129170786, 3225465664, 643717713, 3921069994, 3593408605,
   38016083, 3634488961, 3889429448, 568446438, 3275163606, 4107603335, 1163531501,
   2850285829, 4243563512, 1735328473, 2368359562, 4294588738, 2272392833, 1839030562,
   4259657740, 2763975236, 1272893353, 4139469664, 3200236656, 681279174, 3936430074,
   3572445317, 76029189, 3654602809, 3873151461, 530742520, 3299628645, 4096336452,
   1126891415, 2878612391, 4237533241, 1700485571, 2399980690, 4293915773, 2240044497,
   1873313359, 4264355552, 2734768916, 1309151649, 4149444226, 3174756917, 718787259,
   3951481745]

/-- The 64 MD5 per-round left-rotation amounts. -/
def md5S : List Nat :=
  [7, 12, 17, 22, 7, 12, 17, 22, 7, 12, 17, 22, 7, 12, 17, 22,
   5, 9, 14, 20, 5, 9, 14, 20, 5, 9, 14, 20, 5, 9, 14, 20,
   4, 11, 16, 23, 4, 11, 16, 23, 4, 11, 16, 23, 4, 11, 16, 23,
   6, 10, 15, 21, 6, 10, 15, 21, 6, 10, 15, 21, 6, 10, 15, 21]

/-- Bitwise complement on 32-bit words. -/
def not32 (x : Nat) : Nat := Nat.xor x 4294967295

/-- Left rotation of a 32-bit word. -/
def rotl32 (x s : Nat) : Nat := ((x <<< s) % 4294967296) ||| (x >>> (32 - s))

/-- The MD5 mixing function and message-word index for round `i`. -/
def md5FG (b c d i : Nat) : Nat × Nat :=
  if i < 16 then ((b &&& c) ||| (not32 b &&& d), i)
  else if i < 32 then ((d &&& b) ||| (not32 d &&& c), (5 * i + 1) % 16)
  else if i < 48 then (Nat.xor (Nat.xor b c) d, (3 * i + 5) % 16)
  else (Nat.xor c (b ||| not32 d), (7 * i) % 16)

/-- One MD5 round on the register state, for message words `M`. -/
def md5Round (M : List Nat) (st : MD5State) (i : Nat) : MD5State :=
  let fg := md5FG st.b st.c st.d i
  let f := (fg.1 + st.a + md5K.getD i 0 + M.getD fg.2 0) % 4294967296
  { a := st.d, b := (st.b + rotl32 f (md5S.getD i 0)) % 4294967296, c := st.b, d := st.c }

/-- A 64-byte chunk as 16 little-endian 32-bit words. -/
def toWordsLE (chunk : List Nat) : List Nat :=
  (divideChunks chunk 4).map
    (fun b => b.getD 0 0 + 256 * b.getD 1 0 + 65536 * b.getD 2 0 + 16777216 * b.getD 3 0)

/-- Process one 64-byte chunk: 64 rounds, then add the result into the
incoming registers. -/
def md5Chunk (st : MD5State) (chunk : List Nat) : MD5State :=
  let M := toWordsLE chunk
  let r := (List.range 64).foldl (md5Round M) st
  { a := (st.a + r.a) % 4294967296, b := (st.b + r.b) % 4294967296,
    c := (st.c + r.c) % 4294967296, d := (st.d + r.d) % 4294967296 }

/-- A `Nat` as 8 little-endian bytes. -/
def le64 (x : Nat) : List Nat := (List.range 8).map (fun i => (x >>> (8 * i)) % 256)

/-- A `Nat` as 4 little-endian bytes. -/
def le32 (x : Nat) : List Nat := (List.range 4).map (fun i => (x >>> (8 * i)) % 256)

/-- MD5 padding: append `0x80`, zero-fill to 56 mod 64 bytes, then the
original bit length as a little-endian 64-bit value. -/
def md5Pad (msg : List Nat) : List Nat :=
  let z := (120 - ((msg.length + 1) % 64)) % 64
  msg ++ [128] ++ List.replicate z 0 ++ le64 ((msg.length * 8) % 18446744073709551616)

/-- The MD5 initial register values. -/
def md5Init : MD5State :=
  { a := 1732584193, b := 4023233417, c := 2562383102, d := 271733878 }

/-- The 16-byte MD5 digest of a byte list. -/
def md5Digest (msg : List Nat) : List Nat :=
  let final := (divideChunks (md5Pad msg) 64).foldl md5Chunk md5Init
  le32 final.a ++ le32 final.b ++ le32 final.c ++ le32 final.d

/-- Lower-case hex digit for a value < 16. -/
def hexDigitChar (n : Nat) : Char :=
  if n < 10 then Char.ofNat (48 + n) else Char.ofNat (87 + n)

/-- Two lower-case hex digits of a byte. -/
def byteToHex (b : Nat) : List Char := [hexDigitChar (b / 16), hexDigitChar (b % 16)]

/-- UTF-8 encoding of one character (`str.encode("utf-8")`). -/
def utf8Char (c : Char) : List Nat :=
  let n := c.toNat
  if n < 128 then [n]
  else if n < 2048 then [192 + n / 64, 128 + n % 64]
  else if n < 65536 then [224 + n / 4096, 128 + (n / 64) % 64, 128 + n % 64]
  else [240 + n / 262144, 128 + (n / 4096) % 64, 128 + (n / 64) % 64, 128 + n % 64]

/-- UTF-8 encoding of a string as a byte list. -/
def utf8Bytes (s : String) : List Nat := (s.data.map utf8Char).flatten

/-- `hashlib.md5(s.encode("utf-8")).hexdigest()`. -/
def md5Hex (s : String) : String :=
  String.mk ((md5Digest (utf8Bytes s)).map byteToHex).flatten

/-! ## C7: column-name shortening (`src/table_handler.py`) -/

/-- The parts of the external table-definition object that
`TableHandler.shorten_column_names_in_table_definition` can touch: the
ordered column list, the per-column metadata dict, and the primary-key
list. -/
structure TableDef where
  columns : List String
  columnMetadata : List (String × String)
  primaryKey : List String
deriving Repr

/-- `f"{column_name[:30]}_{hashed}"` with
`hashed = TableHandler._hash_column(column_name)`. -/
def shortenColumnName (name : String) : String :=
  name.take 30 ++ "_" ++ md5Hex name

/-- `TableHandler.shorten_column_names_in_table_definition`: every writer
field name of length ≥ 64 is replaced in the column list by
`first_30_chars + "_" + md5_hex(name)`; the same `key_map` re-keys the
column-metadata dict (`{key_map.get(k, k): v …}`); the function does not
touch the primary-key list (only the separate
`swap_column_names_in_table_definition` does). -/
def shortenColumnNamesInTableDefinition (writerFieldnames : List String)
    (td : TableDef) : TableDef :=
  let keyMap : List (String × String) :=
    (writerFieldnames.filter (fun c => decide (64 ≤ c.length))).map
      (fun c => (c, shortenColumnName c))
  let columns := writerFieldnames.map
    (fun c => if 64 ≤ c.length then shortenColumnName c else c)
  let metadata := td.columnMetadata.foldl
    (fun acc kv => dictSet acc ((dictGet keyMap kv.1).getD kv.1) kv.2) []
  { columns := columns, columnMetadata := metadata, primaryKey := td.primaryKey }

/-! ## Helper lemmas about dictionaries and flattening -/

/-- The parser docstring's depth-1 behavior on `{"a": {"b": {"c": 1}}}`. -/
theorem flattenRow_example_depth1 :
    flattenRow 1 "_" [("a", Json.obj [("b", Json.obj [("c", Json.num 1)])])]
      = [("a_b", Json.obj [("c", Json.num 1)])] := rfl

/-- The class docstring's default-depth example rows. -/
theorem flattenRow_docstring_example :
    flattenRow 2 "_"
      [("nesting_0", Json.str "0"),
       ("nesting_1", Json.obj [("nesting_1", Json.str "1")]),
       ("nesting_2", Json.obj [("nesting_2", Json.obj [("nesting_2", Json.str "2")])]),
       ("nesting_3", Json.obj [("nesting_3", Json.obj [("nesting_3",
          Json.obj [("nesting_3", Json.str "3")])])])]
      = [("nesting_0", Json.str "0"),
         ("nesting_1_nesting_1", Json.str "1"),
         ("nesting_2_nesting_2_nesting_2", Json.str "2"),
         ("nesting_3_nesting_3_nesting_3", Json.obj [("nesting_3", Json.str "3")])] := rfl


theorem dictSet_of_not_mem_keys {α : Type} {d : List (String × α)} {k : String}
    (v : α) (h : k ∉ d.map Prod.fst) : dictSet d k v = d ++ [(k, v)] := by
  induction d with
  | nil => rfl
  | cons kv rest ih =>
    obtain ⟨k₁, v₁⟩ := kv
    simp only [List.map_cons, List.mem_cons, not_or] at h
    have hne : ¬k₁ = k := fun hk => h.1 hk.symm
    simp only [dictSet, if_neg hne, List.cons_append, ih h.2]

theorem dictGet_dictSet_self {α : Type} (d : List (String × α)) (k : String) (v : α) :
    dictGet (dictSet d k v) k = some v := by
  induction d with
  | nil => simp [dictSet, dictGet]
  | cons kv rest ih =>
    obtain ⟨k₁, v₁⟩ := kv
    by_cases hk : k₁ = k
    · simp [dictSet, dictGet, hk]
    · simp [dictSet, dictGet, hk, ih]

theorem dictGet_dictSet_ne {α : Type} (d : List (String × α)) {k₁ k₂ : String}
    (v : α) (h : k₁ ≠ k₂) : dictGet (dictSet d k₁ v) k₂ = dictGet d k₂ := by
  induction d with
  | nil => simp [dictSet, dictGet, h]
  | cons kv rest ih =>
    obtain ⟨ka, va⟩ := kv
    by_cases hk : ka = k₁
    · subst hk
      simp only [dictSet, if_pos rfl, dictGet, if_neg h]
    · simp only [dictSet, if_neg hk, dictGet]
      by_cases hk₂ : ka = k₂
      · simp [hk₂]
      · simp [hk₂, ih]

theorem flattenFuel_not_obj (sep : String) (fuel : Nat) {v : Json}
    (h : v.isObj = false) (name : String) (acc : List (String × Json)) :
    flattenFuel sep fuel v name acc = dictSet acc name v := by
  cases v <;> cases fuel <;> first | rfl | simp [Json.isObj] at h

theorem flattenAt_not_obj (maxDepth : Nat) (sep : String) {v : Json}
    (h : v.isObj = false) (name : String) (depth : Nat) (acc : List (String × Json)) :
    flattenAt maxDepth sep v name depth acc = dictSet acc name v :=
  flattenFuel_not_obj sep _ h name acc

theorem flattenAt_obj_of_le {maxDepth depth : Nat} (sep : String)
    (kvs : List (String × Json)) (name : String) (acc : List (String × Json))
    (h : depth ≤ maxDepth) :
    flattenAt maxDepth sep (Json.obj kvs) name depth acc
      = kvs.foldl
          (fun a kv => flattenAt maxDepth sep kv.2 (constructKey name sep kv.1) (depth + 1) a)
          acc := by
  have h₁ : maxDepth + 1 - depth = (maxDepth - depth) + 1 := by omega
  have h₂ : maxDepth + 1 - (depth + 1) = maxDepth - depth := by omega
  simp only [flattenAt, h₁, h₂]
  rfl

theorem flattenAt_obj_of_lt {maxDepth depth : Nat} (sep : String)
    (kvs : List (String × Json)) (name : String) (acc : List (String × Json))
    (h : maxDepth < depth) :
    flattenAt maxDepth sep (Json.obj kvs) name depth acc
      = dictSet acc name (Json.obj kvs) := by
  have h₁ : maxDepth + 1 - depth = 0 := by omega
  simp only [flattenAt, h₁]
  rfl

theorem constructKey_empty (sep childKey : String) : constructKey "" sep childKey = childKey := by
  simp [constructKey]

theorem flattenFuel_flat_go (sep : String) (fuel : Nat) (l : List (String × Json)) :
    ∀ acc : List (String × Json),
      (∀ kv ∈ l, kv.2.isObj = false) →
      (((acc ++ l).map Prod.fst)).Nodup →
      l.foldl (fun a kv => flattenFuel sep fuel kv.2 (constructKey "" sep kv.1) a) acc
        = acc ++ l := by
  induction l with
  | nil => intro acc _ _; simp
  | cons kv rest ih =>
    intro acc hflat hnd
    obtain ⟨k, v⟩ := kv
    have hv : v.isObj = false := hflat (k, v) (List.mem_cons_self _ _)
    have hnd' := hnd
    rw [List.map_append, List.nodup_append] at hnd'
    have hk_not : k ∉ acc.map Prod.fst := fun hmem => hnd'.2.2 hmem (by simp)
    rw [List.foldl_cons]
    have hhead :
        flattenFuel sep fuel (k, v).2 (constructKey "" sep (k, v).1) acc
          = acc ++ [(k, v)] := by
      show flattenFuel sep fuel v (constructKey "" sep k) acc = acc ++ [(k, v)]
      rw [constructKey_empty, flattenFuel_not_obj sep fuel hv,
        dictSet_of_not_mem_keys v hk_not]
    rw [hhead]
    rw [ih (acc ++ [(k, v)]) (fun kv hkv => hflat kv (List.mem_cons_of_mem _ hkv))
      (by simpa [List.append_assoc] using hnd)]
    simp

theorem flattenRow_flat_id (maxDepth : Nat) (sep : String) (x : List (String × Json))
    (hflat : ∀ kv ∈ x, kv.2.isObj = false) (hnd : (x.map Prod.fst).Nodup) :
    flattenRow maxDepth sep x = x := by
  by_cases hx : x = []
  · subst hx; rfl
  · have hne : x.isEmpty = false := by
      cases x with
      | nil => exact absurd rfl hx
      | cons a l => rfl
    simp only [flattenRow, hne, Bool.false_eq_true, if_false, flattenAt, Nat.sub_zero]
    have hstep :
        flattenFuel sep (maxDepth + 1) (Json.obj x) "" []
          = x.foldl (fun a kv => flattenFuel sep maxDepth kv.2 (constructKey "" sep kv.1) a)
              [] := rfl
    rw [hstep, flattenFuel_flat_go sep maxDepth x [] hflat (by simpa using hnd)]
    simp

/-- C3: for every input record and every `max_depth`, flatten expands a
key exactly while the current depth is `≤ max_depth` and the value is a
mapping (each child processed at depth + 1 under the separator-joined
key, in insertion order); any non-mapping value (including a list of
mappings) or any mapping past the depth budget is stored verbatim under
the separator-joined key; in particular
`flatten({"a": {"b": {"c": 1}}})` with `max_depth = 1` equals
`{"a_b": {"c": 1}}`. -/
theorem c3_flatten_depth_budget :
    (∀ (maxDepth : Nat) (sep : String) (kvs : List (String × Json)) (name : String)
        (depth : Nat) (acc : List (String × Json)), depth ≤ maxDepth →
        flattenAt maxDepth sep (Json.obj kvs) name depth acc
          = kvs.foldl (fun a kv =>
              flattenAt maxDepth sep kv.2 (constructKey name sep kv.1) (depth + 1) a) acc)
  ∧ (∀ (maxDepth : Nat) (sep : String) (v : Json) (name : String) (depth : Nat)
        (acc : List (String × Json)), v.isObj = false →
        flattenAt maxDepth sep v name depth acc = dictSet acc name v)
  ∧ (∀ (maxDepth : Nat) (sep : String) (kvs : List (String × Json)) (name : String)
        (depth : Nat) (acc : List (String × Json)), maxDepth < depth →
        flattenAt maxDepth sep (Json.obj kvs) name depth acc
          = dictSet acc name (Json.obj kvs))
  ∧ flattenRow 1 "_" [("a", Json.obj [("b", Json.obj [("c", Json.num 1)])])]
      = [("a_b", Json.obj [("c", Json.num 1)])]
  ∧ flattenRow 5 "_" [("a", Json.arr [Json.obj [("b", Json.num 1)]])]
      = [("a", Json.arr [Json.obj [("b", Json.num 1)]])] :=
  ⟨fun _ sep kvs name _ acc h => flattenAt_obj_of_le sep kvs name acc h,
   fun maxDepth sep _ name depth acc h => flattenAt_not_obj maxDepth sep h name depth acc,
   fun _ sep kvs name _ acc h => flattenAt_obj_of_lt sep kvs name acc h,
   rfl, rfl⟩

/-- Witness for `c3_flatten_depth_budget`: the three conditional parts
instantiated at concrete inputs. -/
theorem c3_flatten_depth_budget_witness :
    flattenAt 1 "_" (Json.obj [("b", Json.num 2)]) "a" 1 []
      = ([("b", Json.num 2)] : List (String × Json)).foldl
          (fun a kv => flattenAt 1 "_" kv.2 (constructKey "a" "_" kv.1) 2 a) []
  ∧ flattenAt 2 "_" (Json.num 3) "k" 1 [] = dictSet [] "k" (Json.num 3)
  ∧ flattenAt 1 "_" (Json.obj [("c", Json.num 1)]) "a_b" 2 []
      = dictSet [] "a_b" (Json.obj [("c", Json.num 1)]) :=
  ⟨c3_flatten_depth_budget.1 1 "_" [("b", Json.num 2)] "a" 1 [] (by decide),
   c3_flatten_depth_budget.2.1 2 "_" (Json.num 3) "k" 1 [] (by decide),
   c3_flatten_depth_budget.2.2.1 1 "_" [("c", Json.num 1)] "a_b" 2 [] (by decide)⟩

/-- C8: for every already-flat mapping (no mapping values, duplicate-free
keys as in a Python dict) and any `max_depth`, flatten applied to its own
output is a no-op: `flatten(flatten(x)) = flatten(x)`. -/
theorem c8_flatten_idempotent_on_flat (maxDepth : Nat) (sep : String)
    (x : List (String × Json)) (hflat : ∀ kv ∈ x, kv.2.isObj = false)
    (hnd : (x.map Prod.fst).Nodup) :
    flattenRow maxDepth sep (flattenRow maxDepth sep x) = flattenRow maxDepth sep x := by
  rw [flattenRow_flat_id maxDepth sep x hflat hnd]
  exact flattenRow_flat_id maxDepth sep x hflat hnd

/-- Witness for `c8_flatten_idempotent_on_flat` at a concrete flat record. -/
theorem c8_flatten_idempotent_on_flat_witness :
    flattenRow 2 "_" (flattenRow 2 "_" [("id", Json.str "1"), ("name", Json.num 2)])
      = flattenRow 2 "_" [("id", Json.str "1"), ("name", Json.num 2)] :=
  c8_flatten_idempotent_on_flat 2 "_" [("id", Json.str "1"), ("name", Json.num 2)]
    (by decide) (by decide)

/-- C10: a key whose value is an empty mapping, reached while still
within the depth budget, is silently dropped from flatten's output; in
particular `flatten({"a": {}}) = {}` and
`flatten({"a": {}, "b": 1}) = {"b": 1}` (default `max_depth = 2`). -/
theorem c10_flatten_drops_empty_dicts :
    (∀ (maxDepth : Nat) (sep : String) (name : String) (depth : Nat)
        (acc : List (String × Json)), depth ≤ maxDepth →
        flattenAt maxDepth sep (Json.obj []) name depth acc = acc)
  ∧ flattenRow 2 "_" [("a", Json.obj [])] = []
  ∧ flattenRow 2 "_" [("a", Json.obj []), ("b", Json.num 1)] = [("b", Json.num 1)] :=
  ⟨fun _ sep name _ acc h => by rw [flattenAt_obj_of_le sep [] name acc h]; rfl,
   rfl, rfl⟩

/-- Witness for `c10_flatten_drops_empty_dicts`: an empty dict value one
level down (within the default budget) leaves the accumulator untouched. -/
theorem c10_flatten_drops_empty_dicts_witness :
    flattenAt 2 "_" (Json.obj []) "a" 1 [("x", Json.num 7)] = [("x", Json.num 7)] :=
  c10_flatten_drops_empty_dicts.1 2 "_" "a" 1 [("x", Json.num 7)] (by decide)

/-! ## C1 and C2: column evolution and metadata persistence -/

theorem foldl_append_singleton {α : Type} (l : List α) (init : List α) :
    l.foldl (fun a c => a ++ [c]) init = init ++ l := by
  induction l generalizing init with
  | nil => simp
  | cons x xs ih => simp [ih]

/-- C1 (counterexample): for the spec's own example — committed
`["id","name"]`, candidate `["name","email","id"]` — the code produces
`["name","email","id"]`, not the claimed `["id","name","email"]`: the
candidate columns come first and missing committed columns are appended. -/
theorem c1_counterexample :
    addColumnsFromState ["id", "name"] ["name", "email", "id"] = ["name", "email", "id"]
  ∧ addColumnsFromState ["id", "name"] ["name", "email", "id"] ≠ ["id", "name", "email"] := by
  decide

/-- C1 (amended): the effective column list handed to the writer equals
the candidate columns first (in candidate order) followed by exactly
those committed columns not already among the candidates, in committed
order; it is duplicate-free whenever both inputs are, and contains every
committed and every candidate column. -/
theorem c1_effective_columns (state cand : List String) :
    addColumnsFromState state cand = cand ++ state.filter (fun c => decide (c ∉ cand))
  ∧ (state.Nodup → cand.Nodup → (addColumnsFromState state cand).Nodup)
  ∧ (∀ c ∈ state, c ∈ addColumnsFromState state cand)
  ∧ (∀ c ∈ cand, c ∈ addColumnsFromState state cand) := by
  have heq : addColumnsFromState state cand
      = cand ++ state.filter (fun c => decide (c ∉ cand)) := by
    simp only [addColumnsFromState]
    exact foldl_append_singleton _ _
  refine ⟨heq, ?_, ?_, ?_⟩
  · intro hs hc
    rw [heq, List.nodup_append]
    refine ⟨hc, hs.filter _, ?_⟩
    intro a ha hfa
    have := (List.mem_filter.mp hfa).2
    exact (of_decide_eq_true this) ha
  · intro c hc
    rw [heq]
    by_cases hmem : c ∈ cand
    · exact List.mem_append_left _ hmem
    · exact List.mem_append_right _
        (List.mem_filter.mpr ⟨hc, decide_eq_true hmem⟩)
  · intro c hc
    rw [heq]
    exact List.mem_append_left _ hc

/-- Witness for `c1_effective_columns` at committed `["id","extra"]`,
candidate `["id","name"]`. -/
theorem c1_effective_columns_witness :
    addColumnsFromState ["id", "extra"] ["id", "name"]
      = ["id", "name"] ++ ["id", "extra"].filter (fun c => decide (c ∉ ["id", "name"]))
  ∧ (addColumnsFromState ["id", "extra"] ["id", "name"]).Nodup
  ∧ "extra" ∈ addColumnsFromState ["id", "extra"] ["id", "name"] :=
  ⟨(c1_effective_columns ["id", "extra"] ["id", "name"]).1,
   (c1_effective_columns ["id", "extra"] ["id", "name"]).2.1 (by decide) (by decide),
   (c1_effective_columns ["id", "extra"] ["id", "name"]).2.2.1 "extra" (by decide)⟩

/-- `_close_table_handler` always hands `redefine_table_column_metadata`
the state entry it has just overwritten with the current run's final
field list, so every metadata key that is a current column is filtered
out. -/
theorem closeTableHandler_filters_against_current_fields
    (state : List (String × List String)) (name : String)
    (tdColumns finalFieldNames : List String)
    (metadata : List (String × String))
    (h : ∀ kv ∈ metadata, kv.1 ∈ finalFieldNames) :
    (closeTableHandler state name tdColumns finalFieldNames metadata).emittedMetadata
      = [] := by
  simp only [closeTableHandler, redefineTableColumnMetadata,
    dictGet_dictSet_self, Option.getD_some]
  rw [List.filter_eq_nil_iff]
  intro kv hkv
  simpa using h kv hkv

/-- C2 (code bug): with previous-run committed columns `["id"]` and a
current run whose final fields are `["id","email"]` with fresh metadata
for `"email"`, the claim (and the `redefine_table_column_metadata`
docstring) expect the `"email"` entry to be emitted — the second
conjunct shows the filter against the genuine previous state keeps it —
but `_close_table_handler` stores the final field list into
`self.state[name]` *before* reading `prev_run_cols` back from the state,
so nothing is emitted (first conjunct); the third conjunct shows the
emitted metadata is empty for every input whose metadata keys are
current columns. -/
theorem c2_close_metadata_never_emitted :
    (closeTableHandler [("contact", ["id"])] "contact" ["id", "email"]
        ["id", "email"] [("email", "meta")]).emittedMetadata = []
  ∧ redefineTableColumnMetadata [("email", "meta")] ["id"] = [("email", "meta")]
  ∧ (closeTableHandler [("contact", ["id"])] "contact" ["id", "email"]
        ["id", "email"] [("email", "meta")]).newState = [("contact", ["id", "email"])] := by
  refine ⟨?_, by decide, by decide⟩
  exact closeTableHandler_filters_against_current_fields _ _ _ _ _ (by decide)

/-! ## C4, C5, C6: pagination and fetch orchestration -/

theorem dictGet_offset_after_set (params : List (String × Json)) (offset limit : Json) :
    dictGet (dictSet (dictSet params "offset" offset) "limit" limit) "offset"
      = some offset := by
  rw [dictGet_dictSet_ne _ limit (by decide), dictGet_dictSet_self]

/-- C4: for a finite run of offset-convention responses whose last
response has a falsy has-more field and whose earlier responses all have
a truthy one, the pagination loop yields exactly one page per response
and stops — even though the terminal response may carry an offset — the
pages are each response's extracted data, and each non-initial request's
`offset` query parameter is the previous response's `offset` field. -/
theorem c4_pagination_terminates (resObjName : String) (limit : Json)
    (rs : List (List (String × Json))) (r : List (String × Json))
    (params : List (String × Json)) (offset : Json)
    (hmore : ∀ x ∈ rs, truthy (dictGet x "hasMore") = true)
    (hlast : truthy (dictGet r "hasMore") = false) :
    (getPagedResultPages resObjName limit (rs ++ [r]) params offset).length
        = rs.length + 1
  ∧ (getPagedResultPages resObjName limit (rs ++ [r]) params offset).map PageCall.page
        = (rs ++ [r]).map (extractData resObjName)
  ∧ (getPagedResultPages resObjName limit (rs ++ [r]) params offset).map
        (fun c => dictGet c.params "offset")
        = some offset :: rs.map (fun x => some ((dictGet x "offset").getD Json.null)) := by
  induction rs generalizing params offset with
  | nil =>
    refine ⟨?_, ?_, ?_⟩ <;>
      simp only [List.nil_append, getPagedResultPages, hlast, Bool.false_eq_true, if_false,
        List.length_cons, List.length_nil, List.map_cons, List.map_nil,
        dictGet_offset_after_set]
  | cons x rs ih =>
    have hx : truthy (dictGet x "hasMore") = true := hmore x (List.mem_cons_self _ _)
    have ih' := ih (dictSet (dictSet params "offset" offset) "limit" limit)
      ((dictGet x "offset").getD Json.null)
      (fun y hy => hmore y (List.mem_cons_of_mem _ hy))
    simp only [List.cons_append, getPagedResultPages, hx, if_true, List.length_cons,
      List.map_cons, List.append_eq]
    exact ⟨by rw [ih'.1], by rw [ih'.2.1], by rw [ih'.2.2, dictGet_offset_after_set]⟩

/-- Witness for `c4_pagination_terminates`: the example scenario — two
responses, the second terminal — yields exactly 2 pages and the second
request's offset parameter is `"o1"`. -/
theorem c4_pagination_terminates_witness :
    (getPagedResultPages "campaigns" (Json.num 1000) ([exampleRespA] ++ [exampleRespB])
        [] Json.null).length = [exampleRespA].length + 1
  ∧ (getPagedResultPages "campaigns" (Json.num 1000) ([exampleRespA] ++ [exampleRespB])
        [] Json.null).map PageCall.page
      = ([exampleRespA] ++ [exampleRespB]).map (extractData "campaigns")
  ∧ (getPagedResultPages "campaigns" (Json.num 1000) ([exampleRespA] ++ [exampleRespB])
        [] Json.null).map (fun c => dictGet c.params "offset")
      = some Json.null
          :: [exampleRespA].map (fun x => some ((dictGet x "offset").getD Json.null)) :=
  c4_pagination_terminates "campaigns" (Json.num 1000) [exampleRespA] exampleRespB
    [] Json.null (by decide) (by decide)

/-- C5 (counterexample): in incremental fetch mode with the archived flag
configured, `_process_basic_crm_object` still performs the fetch twice
(the claim says no archived-partition fetch is issued and the fetch is
not performed twice); both fetches use the incremental search shape. -/
theorem c5_counterexample :
    processBasicCrmObject FetchMode.incremental_fetch true 0
        = [RequestShape.search 0, RequestShape.search 0]
  ∧ (processBasicCrmObject FetchMode.incremental_fetch true 0).length ≠ 1 := by
  decide

/-- C5 (amended): whenever incremental fetch mode is selected, every
fetch issued uses the incremental search request shape — the archived
flag is ignored by the request builder, so no archived-partition request
reaches the API — but if the archived flag is configured the fetch is
still performed twice (two identical incremental searches). -/
theorem c5_incremental_ignores_archived (fetchMode : FetchMode) (archived : Bool)
    (sinceDate : Int) (h : fetchMode ≠ FetchMode.full_fetch) :
    (∀ r ∈ processBasicCrmObject fetchMode archived sinceDate,
        r = RequestShape.search sinceDate)
  ∧ (processBasicCrmObject fetchMode archived sinceDate).length
      = if archived then 2 else 1 := by
  cases fetchMode with
  | full_fetch => exact absurd rfl h
  | incremental_fetch =>
    have hb : (FetchMode.incremental_fetch != FetchMode.full_fetch) = true := by decide
    cases archived <;> simp [processBasicCrmObject, fetchObjectData, hb]

/-- Witness for `c5_incremental_ignores_archived` in incremental mode
with the archived flag set. -/
theorem c5_incremental_ignores_archived_witness :
    (∀ r ∈ processBasicCrmObject FetchMode.incremental_fetch true 5,
        r = RequestShape.search 5)
  ∧ (processBasicCrmObject FetchMode.incremental_fetch true 5).length
      = if true then 2 else 1 :=
  c5_incremental_ignores_archived FetchMode.incremental_fetch true 5 (by decide)

/-- C6 (code bug): `get_contact_lists` pages with the engine's hard-coded
v1 field names — the request carries page-size parameter `limit` (=1000)
and no `count` parameter, and continuation is read from the absent
`hasMore` key, so a truthy hyphenated `has-more` is ignored and the run
stops after the first page.  The repository's own pagination tests call
the engine with per-call `count`/`has-more` names, which this signature
does not accept. -/
theorem c6_contact_lists_hardcoded_names :
    (getContactLists [contactListsRespA, contactListsRespB]).length = 1
  ∧ (getContactLists [contactListsRespA, contactListsRespB]).map
        (fun c => dictGet c.params "limit") = [some (Json.num 1000)]
  ∧ (getContactLists [contactListsRespA, contactListsRespB]).map
        (fun c => dictGet c.params "count") = [none]
  ∧ truthy (dictGet contactListsRespA "has-more") = true :=
  ⟨rfl, rfl, rfl, rfl⟩

/-! ## C9: association batching -/

theorem divideChunksAux_flatten {α : Type} (listLen : Nat) (hn : listLen ≠ 0) :
    ∀ (fuel : Nat) (l : List α), l.length ≤ fuel →
      (divideChunksAux listLen fuel l).flatten = l := by
  intro fuel
  induction fuel with
  | zero =>
    intro l hl
    cases l with
    | nil => rfl
    | cons a t => simp at hl
  | succ fuel ih =>
    intro l hl
    cases l with
    | nil => rfl
    | cons a t =>
      show ((a :: t).take listLen :: divideChunksAux listLen fuel ((a :: t).drop listLen)).flatten
        = a :: t
      rw [List.flatten_cons]
      rw [ih ((a :: t).drop listLen)
        (by simp only [List.length_drop, List.length_cons]; simp at hl; omega)]
      exact List.take_append_drop listLen (a :: t)

theorem divideChunksAux_size {α : Type} (listLen : Nat) :
    ∀ (fuel : Nat) (l : List α), ∀ b ∈ divideChunksAux listLen fuel l, b.length ≤ listLen := by
  intro fuel
  induction fuel with
  | zero =>
    intro l b hb
    cases l with
    | nil => simp [divideChunksAux] at hb
    | cons a t => simp [divideChunksAux] at hb
  | succ fuel ih =>
    intro l b hb
    cases l with
    | nil => simp [divideChunksAux] at hb
    | cons a t =>
      rcases List.mem_cons.mp hb with hb | hb
      · subst hb
        rw [List.length_take]
        exact Nat.min_le_left _ _
      · exact ih _ b hb

theorem divideChunksAux_count {α : Type} (listLen : Nat) (hn : listLen ≠ 0) :
    ∀ (fuel : Nat) (l : List α), l.length ≤ fuel →
      (divideChunksAux listLen fuel l).length = (l.length + listLen - 1) / listLen := by
  intro fuel
  induction fuel with
  | zero =>
    intro l hl
    cases l with
    | nil =>
      show 0 = (0 + listLen - 1) / listLen
      rw [Nat.div_eq_of_lt (by omega)]
    | cons a t => simp at hl
  | succ fuel ih =>
    intro l hl
    cases l with
    | nil =>
      show 0 = (0 + listLen - 1) / listLen
      rw [Nat.div_eq_of_lt (by omega)]
    | cons a t =>
      show (divideChunksAux listLen fuel ((a :: t).drop listLen)).length + 1
        = ((a :: t).length + listLen - 1) / listLen
      rw [ih ((a :: t).drop listLen)
        (by simp only [List.length_drop, List.length_cons]; simp at hl; omega)]
      simp only [List.length_drop, List.length_cons]
      have hr : t.length + 1 + listLen - 1 = (t.length + 1 - 1) + listLen := by omega
      rw [hr, Nat.add_div_right _ (Nat.pos_of_ne_zero hn)]
      by_cases hml : listLen ≤ t.length + 1
      · have h₁ : t.length + 1 - listLen + listLen - 1 = t.length + 1 - 1 := by omega
        rw [h₁]
      · have h₀ : t.length + 1 - listLen = 0 := by omega
        rw [h₀, Nat.div_eq_of_lt (by omega), Nat.div_eq_of_lt (by omega)]

/-- C9: the association resolver wraps the id sequence into `{"id": …}`
inputs and partitions them into consecutive batches of the default size
100 (last batch possibly smaller), issuing exactly one batch read
request per batch: the batches concatenate back to the inputs in order,
every batch has at most 100 elements, the number of requests is
`⌈n/100⌉`, and 250 ids produce exactly 3 requests of sizes 100, 100, 50. -/
theorem c9_association_batching (objectIds : List String) :
    (getAssociations objectIds).flatten = formatBatchInputs objectIds
  ∧ (∀ b ∈ getAssociations objectIds, b.length ≤ 100)
  ∧ (getAssociations objectIds).length = (objectIds.length + 99) / 100
  ∧ (getAssociations (List.replicate 250 "cid")).map List.length = [100, 100, 50] := by
  refine ⟨?_, ?_, ?_, ?_⟩
  · exact divideChunksAux_flatten 100 (by decide) _ _ (Nat.le_refl _)
  · intro b hb
    exact divideChunksAux_size 100 _ _ b hb
  · show (divideChunksAux 100 (formatBatchInputs objectIds).length
        (formatBatchInputs objectIds)).length = (objectIds.length + 99) / 100
    rw [divideChunksAux_count 100 (by decide) _ _ (Nat.le_refl _)]
    have hlen : (formatBatchInputs objectIds).length = objectIds.length := by
      simp [formatBatchInputs]
    rw [hlen]
    have harith : objectIds.length + 100 - 1 = objectIds.length + 99 := by omega
    rw [harith]
  · set_option maxRecDepth 4000 in decide

/-- Witness for `c9_association_batching`: the single batch of a 2-id run
is within the batch limit. -/
theorem c9_association_batching_witness :
    (getAssociations ["a", "b"]).flatten = formatBatchInputs ["a", "b"]
  ∧ ([BatchInput.mk "a", BatchInput.mk "b"] : List BatchInput).length ≤ 100 :=
  ⟨(c9_association_batching ["a", "b"]).1,
   (c9_association_batching ["a", "b"]).2.1 [BatchInput.mk "a", BatchInput.mk "b"]
     (by decide)⟩

/-- RFC 1321 test vector: the empty message. -/
theorem md5Hex_empty : md5Hex "" = "d41d8cd98f00b204e9800998ecf8427e" := by
  set_option maxRecDepth 4000 in decide

/-- RFC 1321 test vector: `"abc"`. -/
theorem md5Hex_abc : md5Hex "abc" = "900150983cd24fb0d6963f7d28e17f72" := by
  set_option maxRecDepth 4000 in decide

theorem dictGet_eq_none_of_not_mem_keys {α : Type} (d : List (String × α)) (k : String)
    (h : k ∉ d.map Prod.fst) : dictGet d k = none := by
  induction d with
  | nil => rfl
  | cons kv rest ih =>
    obtain ⟨k₁, v₁⟩ := kv
    simp only [List.map_cons, List.mem_cons, not_or] at h
    have hne : ¬k₁ = k := fun hk => h.1 (Eq.symm hk)
    simp only [dictGet, if_neg hne, ih h.2]

theorem dictGet_map_pair_self (f : String → String) (l : List String) (k : String)
    (hk : k ∈ l) : dictGet (l.map (fun c => (c, f c))) k = some (f k) := by
  induction l with
  | nil => cases hk
  | cons c rest ih =>
    by_cases hc : c = k
    · subst hc
      simp [dictGet]
    · rcases List.mem_cons.mp hk with h | h
      · exact absurd h.symm hc
      · simp only [List.map_cons, dictGet, if_neg hc]
        exact ih h

theorem shorten_keyMap_lookup (writerFieldnames : List String) (k : String)
    (hk : k ∈ writerFieldnames) :
    ((dictGet ((writerFieldnames.filter (fun c => decide (64 ≤ c.length))).map
        (fun c => (c, shortenColumnName c))) k).getD k)
      = if 64 ≤ k.length then shortenColumnName k else k := by
  by_cases hlong : 64 ≤ k.length
  · rw [dictGet_map_pair_self shortenColumnName _ k
      (List.mem_filter.mpr ⟨hk, decide_eq_true hlong⟩)]
    simp [hlong]
  · rw [dictGet_eq_none_of_not_mem_keys]
    · simp [hlong]
    · intro hmem
      simp only [List.map_map] at hmem
      rcases List.mem_map.mp hmem with ⟨c, hc, hck⟩
      have : c = k := hck
      subst this
      exact hlong (of_decide_eq_true (List.mem_filter.mp hc).2)

theorem foldl_dictSet_pairs {α : Type} (f : String → String) :
    ∀ (l : List (String × α)) (acc : List (String × α)),
      ((acc.map Prod.fst ++ l.map (fun kv => f kv.1))).Nodup →
      l.foldl (fun acc kv => dictSet acc (f kv.1) kv.2) acc
        = acc ++ l.map (fun kv => (f kv.1, kv.2)) := by
  intro l
  induction l with
  | nil => intro acc _; simp
  | cons kv rest ih =>
    intro acc hnd
    obtain ⟨k, v⟩ := kv
    rw [List.foldl_cons]
    have hnd' := hnd
    rw [List.nodup_append] at hnd'
    have hk_not : f k ∉ acc.map Prod.fst := fun hmem => hnd'.2.2 hmem (by simp)
    have hhead : dictSet acc (f (k, v).1) (k, v).2 = acc ++ [(f k, v)] :=
      dictSet_of_not_mem_keys v hk_not
    rw [hhead]
    rw [ih (acc ++ [(f k, v)]) (by
      simp only [List.map_append, List.map_cons] at hnd ⊢
      simpa [List.append_assoc] using hnd)]
    simp

/-- C7 (counterexample): for a 64-character column name that is also the
primary key, shortening rewrites the column list but leaves the
primary-key list with the original (now absent) name: the claimed
application of the mapping to the primary-key list does not happen. -/
theorem c7_counterexample :
    (shortenColumnNamesInTableDefinition [String.mk (List.replicate 64 'a')]
        { columns := [String.mk (List.replicate 64 'a')],
          columnMetadata := [(String.mk (List.replicate 64 'a'), "m")],
          primaryKey := [String.mk (List.replicate 64 'a')] }).primaryKey
      = [String.mk (List.replicate 64 'a')]
  ∧ (shortenColumnNamesInTableDefinition [String.mk (List.replicate 64 'a')]
        { columns := [String.mk (List.replicate 64 'a')],
          columnMetadata := [(String.mk (List.replicate 64 'a'), "m")],
          primaryKey := [String.mk (List.replicate 64 'a')] }).columns
      = [shortenColumnName (String.mk (List.replicate 64 'a'))]
  ∧ shortenColumnName (String.mk (List.replicate 64 'a'))
      ≠ String.mk (List.replicate 64 'a') := by
  refine ⟨rfl, rfl, ?_⟩
  set_option maxRecDepth 4000 in decide

/-- C7 (amended): for every writer field list and table definition,
length normalization replaces each column name of length ≥ 64 with the
first 30 characters plus `"_"` plus the md5 hex digest of the original
name, and the same original-name→shortened-name mapping is applied to
the per-column metadata keyed by the original name (whenever the
metadata keys are writer fields and the shortened keys stay distinct) —
but the primary-key list is left unchanged. -/
theorem c7_shorten_columns_metadata_not_pk (writerFieldnames : List String)
    (td : TableDef) :
    (shortenColumnNamesInTableDefinition writerFieldnames td).primaryKey = td.primaryKey
  ∧ (shortenColumnNamesInTableDefinition writerFieldnames td).columns
      = writerFieldnames.map
          (fun c => if 64 ≤ c.length then c.take 30 ++ "_" ++ md5Hex c else c)
  ∧ ((∀ kv ∈ td.columnMetadata, kv.1 ∈ writerFieldnames) →
      (td.columnMetadata.map
          (fun kv => if 64 ≤ kv.1.length then shortenColumnName kv.1 else kv.1)).Nodup →
      (shortenColumnNamesInTableDefinition writerFieldnames td).columnMetadata
        = td.columnMetadata.map
            (fun kv =>
              (if 64 ≤ kv.1.length then shortenColumnName kv.1 else kv.1, kv.2))) := by
  refine ⟨rfl, rfl, ?_⟩
  intro hkeys hnd
  show td.columnMetadata.foldl
      (fun acc kv => dictSet acc
        ((dictGet ((writerFieldnames.filter (fun c => decide (64 ≤ c.length))).map
            (fun c => (c, shortenColumnName c))) kv.1).getD kv.1) kv.2) []
    = _
  have hfun : ∀ kv ∈ td.columnMetadata,
      ((dictGet ((writerFieldnames.filter (fun c => decide (64 ≤ c.length))).map
          (fun c => (c, shortenColumnName c))) kv.1).getD kv.1)
        = if 64 ≤ kv.1.length then shortenColumnName kv.1 else kv.1 :=
    fun kv hkv => shorten_keyMap_lookup writerFieldnames kv.1 (hkeys kv hkv)
  have hnodup : ((([] : List (String × String)).map Prod.fst)
      ++ td.columnMetadata.map (fun kv =>
        (dictGet ((writerFieldnames.filter (fun c => decide (64 ≤ c.length))).map
          (fun c => (c, shortenColumnName c))) kv.1).getD kv.1)).Nodup := by
    rw [List.map_nil, List.nil_append, List.map_congr_left hfun]
    exact hnd
  have hmain := foldl_dictSet_pairs
    (fun k => (dictGet ((writerFieldnames.filter (fun c => decide (64 ≤ c.length))).map
      (fun c => (c, shortenColumnName c))) k).getD k)
    td.columnMetadata [] hnodup
  refine hmain.trans ?_
  rw [List.nil_append]
  apply List.map_congr_left
  intro kv hkv
  exact congrArg (fun x => (x, kv.2)) (hfun kv hkv)

/-- Witness for `c7_shorten_columns_metadata_not_pk` at a concrete table
definition with a short metadata key. -/
theorem c7_shorten_columns_metadata_not_pk_witness :
    (shortenColumnNamesInTableDefinition ["email", "id"]
        { columns := ["email", "id"], columnMetadata := [("email", "desc")],
          primaryKey := ["id"] }).primaryKey = ["id"]
  ∧ (shortenColumnNamesInTableDefinition ["email", "id"]
        { columns := ["email", "id"], columnMetadata := [("email", "desc")],
          primaryKey := ["id"] }).columnMetadata
      = [("email", "desc")].map
          (fun kv =>
            ((if 64 ≤ kv.1.length then shortenColumnName kv.1 else kv.1 : String),
              kv.2)) :=
  ⟨(c7_shorten_columns_metadata_not_pk ["email", "id"]
      { columns := ["email", "id"], columnMetadata := [("email", "desc")],
        primaryKey := ["id"] }).1,
   (c7_shorten_columns_metadata_not_pk ["email", "id"]
      { columns := ["email", "id"], columnMetadata := [("email", "desc")],
        primaryKey := ["id"] }).2.2 (by decide) (by decide)⟩
